import Mathlib

/-!
Verification of the omnilang AST f-string converter
(`src/omnilang/core/converter.py`) against its specification.

The development shallowly embeds the converter's core:
* the string classifier `FStringAnalyzer._is_user_facing_string`,
* the analyzer (`visit_Call` / `visit_JoinedStr`) over a small Python-AST
  model,
* the expression builder (`FStringTransformer.generic_visit`, including the
  string-literal escaping performed by `ast.unparse`), and
* the byte-span patch engine of `ASTFStringConverter.convert_file`.

Python strings are modelled by Lean `String` (a list of Unicode scalar
values, matching Python's code-point view of `str`); file bytes are
modelled by `List Nat`.  Behaviour of the CPython standard library that
the converter calls (`str.strip`, `str.split`, `repr`, `ast.unparse`,
`bytes.splitlines`, `sorted`) is modelled by the `py*` functions below,
each faithful to CPython on the ASCII-plus-emoji data the converter
handles; the documentation of each function notes any narrowing.
-/

namespace Omnilang

/-- Whitespace test used by `str.strip()` / `str.split()` with no
arguments.  Models the ASCII part of Python's definition (space, tab,
newline, carriage return, vertical tab, form feed); exotic Unicode
whitespace is not modelled. -/
def pyIsSpace (c : Char) : Bool :=
  c = ' ' || c = '\t' || c = '\n' || c = '\r' || c.toNat = 11 || c.toNat = 12

/-- Python's `str.strip()` with no argument, on code-point lists. -/
def pyStripList (l : List Char) : List Char :=
  ((l.dropWhile pyIsSpace).reverse.dropWhile pyIsSpace).reverse

/-- Python's `str.strip()` with no argument. -/
def pyStrip (s : String) : String :=
  ⟨pyStripList s.data⟩

/-- Python's `str.strip(chars)`: remove leading and trailing code points that are
members of `cs` (Python treats the argument as a set of code points). -/
def pyStripChars (cs : List Char) (s : String) : String :=
  ⟨((s.data.dropWhile (cs.contains ·)).reverse.dropWhile (cs.contains ·)).reverse⟩

/-- Python's `str.split()` with no argument: maximal runs of non-whitespace. -/
def pySplit (s : String) : List String :=
  ((s.data.splitOnP pyIsSpace).filter (· ≠ [])).map String.mk

/-- Python's `str.lower()`.  Models the ASCII case map; the converter's data only
ever lower-cases ASCII letters (emoji are unaffected in both). -/
def pyLower (s : String) : String :=
  ⟨s.data.map Char.toLower⟩

/-- Substring test on code-point lists (Python's `needle in haystack`). -/
def containsSub (needle : List Char) : List Char → Bool
  | [] => needle.isEmpty
  | c :: rest => needle.isPrefixOf (c :: rest) || containsSub needle rest

/-- Python's `needle in haystack` for `str`. -/
def strIn (needle hay : String) : Bool :=
  containsSub needle.data hay.data

/-- Python's `str.startswith(tuple)`. -/
def startsWithAny (s : String) (ps : List String) : Bool :=
  ps.any (fun p => p.data.isPrefixOf s.data)

/-- Python's `str.isupper()` on the ASCII fragment: at least one cased
character and no lower-case character. -/
def pyIsUpper (s : String) : Bool :=
  s.data.any (fun c => c.isUpper || c.isLower) && s.data.all (fun c => !c.isLower)

/-- Python's `str.isdigit()` on the ASCII fragment. -/
def pyIsDigit (s : String) : Bool :=
  !s.data.isEmpty && s.data.all Char.isDigit

/-- List `pure_formatting_patterns` (converter.py line 169). -/
def pure_formatting_patterns : List String :=
  ["=", "-", "─", "┐", "┘", "┌", "└", "╭", "╮", "╰", "╯",
   "---", "----", "-----", "------",
   "===", "====", "=====", "======",
   "___", "____", "_____", "______"]

/-- List `output_formatting` (converter.py line 185). -/
def output_formatting : List String :=
  ["--- stderr ---", "--- stdout ---", "--------------",
   "--------------------------------", "========================",
   "~~~~~~~~~~~~~~~~~~~~~~~~~~~~~~~~"]

/-- List `single_emoji_formatting` (converter.py line 194).  Note that the
warning sign is the two-code-point sequence U+26A0 U+FE0F, exactly as in
the Python source. -/
def single_emoji_formatting : List String :=
  ["🔥", "🌍", "✅", "⚠️", "🔧", "🚀", "🧹", "🔬", "🎯", "📦", "🔍", "❌"]

/-- List `technical_patterns` (converter.py line 205). -/
def technical_patterns : List String :=
  [".py", ".json", ".dist-info", ".egg-info", ".lock", ".tmp",
   "omnipkg:pkg:", "omnipkg:snapshot:", "bubble_version:", "active_version",
   "import ", "from ", "def ", "class ", "try:", "except ", "finally:",
   "if ", "else:", "elif ", "for ", "while ", "return ", "yield ",
   "with ", "as ", "pass", "break", "continue", "raise ", "assert ",
   "lambda ", "f\"", "f'", ".__", "sys.path", "os.environ"]

/-- List `user_emojis` (converter.py line 223). -/
def user_emojis : List String :=
  ["✅", "❌", "⚠️", "🔍", "📦", "🎯", "🔧", "🧹", "🚀", "🔬"]

/-- The set of code points of the literal `'🔥🌍✅⚠️🔧🧹🚀🔬🎯📦🔍❌'`
passed to `word.strip(...)` on converter.py line 225. -/
def meaningfulStripChars : List Char :=
  "🔥🌍✅⚠️🔧🧹🚀🔬🎯📦🔍❌".data

/-- List `user_facing_patterns` (converter.py line 231). -/
def user_facing_patterns : List String :=
  ["error", "warning", "success", "failed", "complete", "install",
   "remove", "update", "found", "missing", "version", "package",
   "dependency", "conflict", "press enter", "are you sure", "continue",
   "cancel", "proceed", "select", "choice", "skipping", "restoring",
   "clearing", "verification", "cleanup", "test", "switching"]

/-- Classifier `FStringAnalyzer._is_user_facing_string(content, context)`
(converter.py lines 162-253), transcribed rule for rule in source order:
six reject blocks, four accept rules, default reject. -/
def is_user_facing_string (content context : String) : Bool :=
  let content_lower := pyLower content
  let context_lower := pyLower (pyStrip context)
  let content_stripped := pyStrip content
  -- 1. pure formatting patterns
  if pure_formatting_patterns.contains content_stripped then false
  else if content_stripped.data.eraseDups.length == 1
      && (['=', '-', '_', '~'].contains (content_stripped.data.headD ' ')) then false
  -- 2. common output formatting patterns
  else if (output_formatting.map pyLower).contains (pyStrip content_lower) then false
  -- 3. standalone emoji fragments
  else if
      (let content_no_whitespace : String := ⟨((pySplit content).map String.data).flatten⟩
       single_emoji_formatting.contains content_no_whitespace
        || (content_no_whitespace.data.length ≤ 3
            && content_no_whitespace.data.all
                (fun c => ((single_emoji_formatting.map String.data).flatten).contains c)))
      then false
  -- 4. pure whitespace / newlines
  else if pyStrip content == "" || ["\n", "\n\n", "\t", " "].contains content then false
  -- 5. obvious technical patterns
  else if technical_patterns.any (fun p => strIn p content_lower) then false
  -- 6. path-like strings without spaces
  else if (strIn "/" content || strIn "\\" content) && !(strIn " " content) then false
  -- accept 1: emoji mixed with meaningful text
  else if (user_emojis.any (fun e => strIn e content))
      && ((pySplit content).filter
            (fun w => pyStripChars meaningfulStripChars w ≠ "")).length > 0 then true
  -- accept 2: user-facing keywords in sentences of more than two words
  else if (pySplit content).length > 2
      && user_facing_patterns.any (fun p => strIn p content_lower) then true
  -- accept 3: strings in print/input context
  else if startsWithAny context_lower ["print(", "input(", "_("] then true
  -- accept 4: multi-word sentences with punctuation, not all upper/numeric
  else if (pySplit content).length ≥ 3
      && (".,!?:".data.any (fun c => strIn ⟨[c]⟩ content))
      && !((pySplit content).all (fun w => pyIsUpper w || pyIsDigit w)) then true
  else false

/-- Source position of an AST node: `(lineno, col_offset)` — 1-based line
and 0-based UTF-8 byte column, as in CPython's `ast`. -/
structure Loc where
  line : Nat
  col : Nat
deriving DecidableEq, Repr

/-- Value of an `ast.Constant`: a string, or any other constant together
with its `ast.unparse` rendering. -/
inductive PyVal where
  | strV (s : String)
  | otherV (rendered : String)
deriving DecidableEq, Repr

mutual
/-- Model of the Python expression/statement nodes the converter inspects.
`nameE`, `constantE`, `callE`, `attributeE`, `joinedStrE` model the
corresponding `ast` node kinds (calls model positional arguments, the only
kind the converter reads or builds); every other node kind is modelled by
`otherE` carrying its rendering and the child expressions that
`ast.NodeVisitor.generic_visit` would descend into, in field order. -/
inductive Expr where
  | nameE (loc : Loc) (id : String)
  | constantE (loc : Loc) (val : PyVal)
  | callE (loc : Loc) (func : Expr) (args : ExprList)
  | attributeE (loc : Loc) (value : Expr) (attr : String)
  | joinedStrE (loc : Loc) (values : JPartList)
  | otherE (loc : Loc) (rendered : String) (children : ExprList)

/-- Lists of expressions (a mutual list type, so that structural recursion
over the tree is available). -/
inductive ExprList where
  | nilE
  | consE (e : Expr) (es : ExprList)

/-- One element of `ast.JoinedStr.values`: a literal segment
(`ast.Constant`), an `ast.FormattedValue` with its conversion code
(-1 when absent) and optional `format_spec` (itself a `JoinedStr`), or —
for faithfulness to the converter's defensive `else` branch — any other
node. -/
inductive JPart where
  | strJ (s : String)
  | formattedJ (value : Expr) (conversion : Int) (format_spec : Option JPartList)
  | otherJ (e : Expr)

/-- Lists of `JPart`. -/
inductive JPartList where
  | nilJ
  | consJ (p : JPart) (ps : JPartList)
end

/-- Lower-case hexadecimal digit, as printed by Python's `%02x`. -/
def hexDigitChar (n : Nat) : Char :=
  if n < 10 then Char.ofNat (48 + n) else Char.ofNat (87 + n)

/-- Escaping of one character by CPython `repr` on `str`, for chosen quote
`q`: backslash, tab, newline and carriage return get two-character
escapes, the quote character is backslash-escaped, all other control
characters (and DEL) become `\xhh`; everything else is emitted as is. -/
def reprEscChar (q : Char) (c : Char) : List Char :=
  if c = '\\' then ['\\', '\\']
  else if c = '\t' then ['\\', 't']
  else if c = '\n' then ['\\', 'n']
  else if c = '\r' then ['\\', 'r']
  else if c = q then ['\\', q]
  else if c.toNat < 32 || c.toNat = 127 then
    ['\\', 'x', hexDigitChar (c.toNat / 16), hexDigitChar (c.toNat % 16)]
  else [c]

/-- Quote selection of CPython `repr`: a single quote, unless the string
contains a single quote and no double quote. -/
def reprQuote (s : String) : Char :=
  if s.data.contains '\'' && !(s.data.contains '"') then '"' else '\''

/-- CPython `repr` for `str`, used by `ast.unparse` to render string
constants.  Exact for strings of ASCII code points; code points ≥ 0x80
are emitted literally (CPython additionally escapes the non-printable
ones among them, a Unicode-category distinction not modelled — both
renderings denote the same string when re-parsed). -/
def pyRepr (s : String) : String :=
  let q := reprQuote s
  ⟨q :: (s.data.map (reprEscChar q)).flatten ++ [q]⟩

/-- Value of a hexadecimal digit. -/
def hexVal (c : Char) : Option Nat :=
  if '0' ≤ c ∧ c ≤ '9' then some (c.toNat - 48)
  else if 'a' ≤ c ∧ c ≤ 'f' then some (c.toNat - 87)
  else if 'A' ≤ c ∧ c ≤ 'F' then some (c.toNat - 55)
  else none

mutual
/-- Decoder for the body of a Python single-quoted string literal with
quote `q`: the inverse direction of `reprEscChar`.  Succeeds exactly when
the input is a well-formed body terminated by the closing quote. -/
def unescapeBody (q : Char) : List Char → Option (List Char)
  | [] => none
  | c :: cs =>
    if c = q then (if cs.isEmpty then some [] else none)
    else if c = '\\' then unescapeEsc q cs
    else (unescapeBody q cs).map (fun l => c :: l)

/-- Decoding of the character following a backslash. -/
def unescapeEsc (q : Char) : List Char → Option (List Char)
  | [] => none
  | e :: rest =>
    if e = '\\' then (unescapeBody q rest).map (fun l => '\\' :: l)
    else if e = 't' then (unescapeBody q rest).map (fun l => '\t' :: l)
    else if e = 'n' then (unescapeBody q rest).map (fun l => '\n' :: l)
    else if e = 'r' then (unescapeBody q rest).map (fun l => '\r' :: l)
    else if e = 'x' then unescapeHex q rest
    else if e = q then (unescapeBody q rest).map (fun l => q :: l)
    else none

/-- Decoding of the two hex digits of a `\xhh` escape. -/
def unescapeHex (q : Char) : List Char → Option (List Char)
  | h1 :: h2 :: rest =>
    (match hexVal h1, hexVal h2 with
     | some a, some b => (unescapeBody q rest).map (fun l => Char.ofNat (16 * a + b) :: l)
     | _, _ => none)
  | _ => none
end

/-- Re-parsing of an emitted Python string literal back to its value. -/
def parsePyStrLit (lit : String) : Option String :=
  match lit.data with
  | q :: rest => if q = '\'' || q = '"' then (unescapeBody q rest).map String.mk else none
  | [] => none

mutual
/-- CPython `ast.unparse`, restricted to the node shapes the converter
reads and builds: names, constants, calls with positional arguments,
attribute access, and f-strings.  A standalone `JoinedStr` is rendered as
an f-string literal with the unparser's preferred single quotes
(`f'...'`), its literal segments emitted verbatim — exact for segments
without quotes, braces or backslashes, which is all the relevant
theorems instantiate. -/
def pyUnparse : Expr → String
  | .nameE _ id => id
  | .constantE _ (.strV s) => pyRepr s
  | .constantE _ (.otherV rendered) => rendered
  | .callE _ f args => pyUnparse f ++ "(" ++ String.intercalate ", " (unparseArgs args) ++ ")"
  | .attributeE _ v a => pyUnparse v ++ "." ++ a
  | .joinedStrE _ vals => "f'" ++ fstringInner vals ++ "'"
  | .otherE _ rendered _ => rendered

/-- Renderings of a call's positional arguments, in order. -/
def unparseArgs : ExprList → List String
  | .nilE => []
  | .consE e es => pyUnparse e :: unparseArgs es

/-- Inner text of an unparsed f-string. -/
def fstringInner : JPartList → String
  | .nilJ => ""
  | .consJ (.strJ s) ps => s ++ fstringInner ps
  | .consJ (.formattedJ v conv spec) ps =>
      "\x7b" ++ pyUnparse v
        ++ (if conv != -1 then "!" ++ String.mk [Char.ofNat conv.toNat] else "")
        ++ (match spec with
            | some sp => ":" ++ fstringInner sp
            | none => "")
        ++ "\x7d" ++ fstringInner ps
  | .consJ (.otherJ e) ps => pyUnparse e ++ fstringInner ps
end

/-- Placeholder construction for one `ast.FormattedValue`
(converter.py lines 127-145): open brace, `!c` for a conversion code,
`:` followed by `ast.unparse(value.format_spec)` when a format spec is
present, close brace.  Since `format_spec` is a `JoinedStr` node,
`ast.unparse` renders it as a full f-string literal `f'...'`. -/
def buildPlaceholder (conversion : Int) (format_spec : Option JPartList) : String :=
  let p := "\x7b"
  let p := if conversion != -1 then p ++ "!" ++ String.mk [Char.ofNat conversion.toNat] else p
  let p :=
    match format_spec with
    | some spec => p ++ ":" ++ pyUnparse (.joinedStrE ⟨0, 0⟩ spec)
    | none => p
  p ++ "\x7d"

/-- The template/variables reconstruction loop of `visit_JoinedStr`
(converter.py lines 123-150): literal segments are appended to the
template, each formatted value contributes its placeholder to the
template and `ast.unparse` of its sub-expression to the variable list,
in left-to-right source order. -/
def buildTemplate : JPartList → String × List String
  | .nilJ => ("", [])
  | .consJ p ps =>
    let rest := buildTemplate ps
    match p with
    | .strJ s => (s ++ rest.1, rest.2)
    | .formattedJ v conv spec => (buildPlaceholder conv spec ++ rest.1, pyUnparse v :: rest.2)
    | .otherJ e => (pyUnparse e ++ rest.1, rest.2)

/-- The embedded sub-expressions of an f-string, in source order. -/
def subExprs : JPartList → List Expr
  | .nilJ => []
  | .consJ (.formattedJ v _ _) ps => v :: subExprs ps
  | .consJ _ ps => subExprs ps

/-- An entry of `FStringAnalyzer.strings_to_convert`: either a
string-constant record (`type == 'Constant'`) or an f-string record
(`type == 'JoinedStr'`); `original_line` is stored stripped. -/
inductive Cand where
  | lit (loc : Loc) (value : String) (original_line : String)
  | joined (loc : Loc) (template : String) (vars : List String) (original_line : String)
deriving DecidableEq, Repr

/-- Location of a candidate. -/
def Cand.loc : Cand → Loc
  | .lit l _ _ => l
  | .joined l _ _ _ => l

/-- Analyzer state: the `strings_to_convert` list (appended in emission
order) and the `translated_locations` set (modelled as a list with
membership-checked insertion). -/
structure AState where
  strings_to_convert : List Cand
  translated_locations : List Loc
deriving DecidableEq, Repr

/-- Insertion into the `translated_locations` set. -/
def addLoc (l : Loc) (hs : List Loc) : List Loc :=
  if hs.contains l then hs else l :: hs

/-- The sink allow-list `user_facing_funcs` (converter.py line 90). -/
def user_facing_funcs : List String :=
  ["print", "input", "echo", "prompt"]

/-- The `func_name` computation of `visit_Call` (lines 91-95): bare
identifier, or final attribute name, else empty. -/
def funcNameOf : Expr → String
  | .nameE _ id => id
  | .attributeE _ _ a => a
  | _ => ""

/-- The `is_translation_call` test of `visit_Call` (lines 72-80): a call
whose callee is the bare name `_`, or an attribute (any name) on a call
to the bare name `_`.  The argument is the call's `func`. -/
def is_translation_call (func : Expr) : Bool :=
  match func with
  | .nameE _ id => id == "_"
  | .attributeE _ (.callE _ (.nameE _ id) _) _ => id == "_"
  | _ => false

/-- `self.source_lines[lineno - 1]` (Python raises when out of range; the
default is never reached in the theorems below). -/
def lineAt (source_lines : List String) (l : Loc) : String :=
  source_lines.getD (l.line - 1) ""

mutual
/-- Dispatch of `FStringAnalyzer.visit` (an `ast.NodeVisitor`):
`visit_Call` on calls (lines 66-115), `visit_JoinedStr` on f-strings
(lines 117-160, which does not descend into children), and
`generic_visit` — visiting children in field order — on everything
else. -/
def visitExpr (source_lines : List String) : Expr → AState → AState
  | .callE loc func args, st =>
    if is_translation_call func then
      { st with translated_locations := addLoc loc st.translated_locations }
    else
      let st1 :=
        if user_facing_funcs.contains (funcNameOf func) then
          scanCallArgs source_lines args st
        else st
      visitList source_lines args (visitExpr source_lines func st1)
  | .joinedStrE loc vals, st =>
    if st.translated_locations.contains loc then st
    else
      let tv := buildTemplate vals
      let original_line := lineAt source_lines loc
      if is_user_facing_string tv.1 original_line then
        { st with strings_to_convert :=
            st.strings_to_convert ++ [.joined loc tv.1 tv.2 (pyStrip original_line)] }
      else st
  | .nameE _ _, st => st
  | .constantE _ _, st => st
  | .attributeE _ v _, st => visitExpr source_lines v st
  | .otherE _ _ children, st => visitList source_lines children st

/-- The `for arg in node.args` scan of a sink call (lines 98-112): each
direct string-constant argument not already handled is classified and,
when accepted, recorded and marked handled. -/
def scanCallArgs (source_lines : List String) : ExprList → AState → AState
  | .nilE, st => st
  | .consE a rest, st =>
    let st1 :=
      match a with
      | .constantE cloc (.strV s) =>
        if st.translated_locations.contains cloc then st
        else
          let original_line := lineAt source_lines cloc
          if is_user_facing_string s original_line then
            { st with
                strings_to_convert :=
                  st.strings_to_convert ++ [.lit cloc s (pyStrip original_line)],
                translated_locations := addLoc cloc st.translated_locations }
          else st
      | _ => st
    scanCallArgs source_lines rest st1

/-- Sequential visit of a list of children. -/
def visitList (source_lines : List String) : ExprList → AState → AState
  | .nilE, st => st
  | .consE e es, st => visitList source_lines es (visitExpr source_lines e st)
end

/-- `ASTFStringConverter.analyze_file` reduced to its core (lines
454-465): run the analyzer over the tree and return
`strings_to_convert`. -/
def analyze (source_lines : List String) (tree : Expr) : List Cand :=
  (visitExpr source_lines tree ⟨[], []⟩).strings_to_convert

/-- Position used for nodes the transformer constructs (CPython builds
them without locations). -/
def dummyLoc : Loc := ⟨0, 0⟩

/-- The `_(template)` call node built by `FStringTransformer.generic_visit`
(converter.py lines 296-300 and 319-323). -/
def translation_call (template : String) : Expr :=
  .callE dummyLoc (.nameE dummyLoc "_") (.consE (.constantE dummyLoc (.strV template)) .nilE)

/-- Conversion of a Lean list of expressions to the tree's list type. -/
def toExprList : List Expr → ExprList
  | [] => .nilE
  | e :: es => .consE e (toExprList es)

/-- The `_(template).format(...)` node of lines 306-311.  `parseEval`
stands for the external collaborator `ast.parse(var_expr, mode='eval').body`;
the theorems quantify over it under CPython's round-trip contract that it
inverts `ast.unparse` on the strings at hand. -/
def format_call (parseEval : String → Expr) (template : String) (vars : List String) : Expr :=
  .callE dummyLoc (.attributeE dummyLoc (translation_call template) "format")
    (toExprList (vars.map parseEval))

/-- Replacement text for an f-string candidate (lines 296-328):
`ast.unparse` of the constructed node. -/
def replacement_for_joined (parseEval : String → Expr) (template : String)
    (vars : List String) : String :=
  if vars.isEmpty then pyUnparse (translation_call template)
  else pyUnparse (format_call parseEval template vars)

/-- Replacement text for a string-constant candidate (lines 314-328). -/
def replacement_for_lit (value : String) : String :=
  pyUnparse (translation_call value)

/-- One record of `transformer.conversions_made`: AST start/end positions
(1-based line, 0-based byte column) and the UTF-8 bytes of
`replacement_text` (line 534 encodes the text before splicing). -/
structure Conv where
  start_line : Nat
  start_col : Nat
  end_line : Nat
  end_col : Nat
  repl : List Nat
deriving DecidableEq, Repr

/-- Python `bytes.splitlines(keepends=True)`: split after LF, CR or CRLF
(the only line breaks recognized on `bytes`). -/
def splitKeepAux (cur : List Nat) : List Nat → List (List Nat)
  | [] => if cur.isEmpty then [] else [cur.reverse]
  | 13 :: 10 :: rest => (cur.reverse ++ [13, 10]) :: splitKeepAux [] rest
  | 13 :: rest => (cur.reverse ++ [13]) :: splitKeepAux [] rest
  | 10 :: rest => (cur.reverse ++ [10]) :: splitKeepAux [] rest
  | b :: rest => splitKeepAux (b :: cur) rest

/-- The line-start byte-offset index of converter.py lines 510-516:
`[0]` followed by the cumulative byte lengths of the kept-ends lines. -/
def line_start_indices (src : List Nat) : List Nat :=
  ((splitKeepAux [] src).foldl
    (fun acc line => (acc.1 ++ [acc.2 + line.length], acc.2 + line.length)) ([0], 0)).1

/-- Absolute byte offset `start_idx` (line 524).  Python's list indexing
raises when the line is out of range; the theorems below only instantiate
in-range positions, where `getD`'s default is unreachable. -/
def startIdx (src : List Nat) (c : Conv) : Nat :=
  (line_start_indices src).getD (c.start_line - 1) 0 + c.start_col

/-- Absolute byte offset `end_idx` (line 525). -/
def endIdx (src : List Nat) (c : Conv) : Nat :=
  (line_start_indices src).getD (c.end_line - 1) 0 + c.end_col

/-- Weak order on the sort key `(start_line, start_col)` of line 506. -/
def keyLe (a b : Conv) : Bool :=
  a.start_line < b.start_line || (a.start_line == b.start_line && a.start_col ≤ b.start_col)

/-- Insertion into a descending-by-key list, placed before the first
element whose key is not larger. -/
def insertDesc (c : Conv) : List Conv → List Conv
  | [] => [c]
  | x :: xs => if keyLe x c then c :: x :: xs else x :: insertDesc c xs

/-- Python `sorted(conversions, key=(start_line, start_col), reverse=True)`
(lines 504-508), modelled as a stable descending insertion sort — any
stable descending sort produces the same list. -/
def sortDesc (l : List Conv) : List Conv := l.foldr insertDesc []

/-- State of the surgical-replacement loop (lines 518-547): the
accumulated byte chunks and descending cursor `last_pos`, the
`self.all_conversions` records appended for each applied replacement
(modelled by the `Conv` itself), and the messages printed inside the
loop — the loop body contains no print or logging call, so this list
never grows. -/
structure PatchState where
  parts : List (List Nat)
  last_pos : Nat
  applied : List Conv
  logs : List String
deriving DecidableEq, Repr

/-- One iteration of the loop (lines 521-547): a replacement whose
`start_idx` lies at or beyond the cursor is skipped (`continue`);
otherwise the bytes from its end to the cursor and then its replacement
bytes are appended, and the cursor moves to its start. -/
def patchStep (src : List Nat) (st : PatchState) (c : Conv) : PatchState :=
  if st.last_pos ≤ startIdx src c then st
  else
    { parts := st.parts ++ [(src.take st.last_pos).drop (endIdx src c), c.repl],
      last_pos := startIdx src c,
      applied := st.applied ++ [c],
      logs := st.logs }

/-- The loop run over the descending-sorted replacements, from the
initial state `last_pos = len(source_bytes)`. -/
def runPatchLoop (src : List Nat) (convs : List Conv) : PatchState :=
  (sortDesc convs).foldl (patchStep src) ⟨[], src.length, [], []⟩

/-- The full byte-patching of `convert_file` (lines 501-553): sort
descending, run the loop, append the remaining prefix, reassemble the
chunks in reverse order. -/
def applyConvs (src : List Nat) (convs : List Conv) : List Nat :=
  (((runPatchLoop src convs).parts
    ++ [src.take (runPatchLoop src convs).last_pos]).reverse).flatten

/-- The mode split of `convert_file` (lines 496-561): when there are no
replacements the function returns without touching the file; otherwise
the final buffer is computed identically in both modes and `dry_run`
only decides whether it is written back.  Result: (computed buffer,
bytes written to disk, if any). -/
def convert_file_run (dry_run : Bool) (src : List Nat) (convs : List Conv) :
    List Nat × Option (List Nat) :=
  if convs.isEmpty then (src, none)
  else (applyConvs src convs, if dry_run then none else some (applyConvs src convs))

/-- Specification-side description of patching, following the spec's
words (§4.4 Guarantees): for an ascending list of non-overlapping spans,
the output is the input outside the replaced ranges and each
replacement's text within its range.  `pos` is the next input offset not
yet emitted. -/
def specPatched (src : List Nat) : Nat → List Conv → List Nat
  | pos, [] => src.drop pos
  | pos, c :: cs =>
      ((src.take (startIdx src c)).drop pos) ++ c.repl ++ specPatched src (endIdx src c) cs

/-- Bounded variant of `specPatched` used by the loop invariant: emission
stops at input offset `bound`. -/
def specPatchedUB (src : List Nat) (bound : Nat) : Nat → List Conv → List Nat
  | pos, [] => (src.take bound).drop pos
  | pos, c :: cs =>
      ((src.take (startIdx src c)).drop pos) ++ c.repl ++ specPatchedUB src bound (endIdx src c) cs

/-- The byte string a correct descending walk with upper boundary `bound`
produces for a descending replacement list. -/
def specDesc (src : List Nat) : Nat → List Conv → List Nat
  | bound, [] => src.take bound
  | bound, c :: cs =>
      specDesc src (startIdx src c) cs ++ c.repl ++ ((src.take bound).drop (endIdx src c))

/-- Strict ascending order of the sort keys `(start_line, start_col)`. -/
def keyLt (a b : Conv) : Prop :=
  a.start_line < b.start_line ∨ (a.start_line = b.start_line ∧ a.start_col < b.start_col)

instance (a b : Conv) : Decidable (keyLt a b) := by
  unfold keyLt; infer_instance

/-- Ascending `(line, column)` order on source locations, the order the
spec asserts for the analyzer's output. -/
def locLe (a b : Loc) : Prop :=
  a.line < b.line ∨ (a.line = b.line ∧ a.col ≤ b.col)

instance (a b : Loc) : Decidable (locLe a b) := by
  unfold locLe; infer_instance

/-- Conversion of the tree's list type back to a Lean list. -/
def exprListToList : ExprList → List Expr
  | .nilE => []
  | .consE e es => e :: exprListToList es

/-- Positional arguments of a call node (empty for non-calls). -/
def callArgs : Expr → List Expr
  | .callE _ _ args => exprListToList args
  | _ => []

mutual
/-- The locations at which `visitExpr` can append a candidate, listed in
the exact order the analyzer reaches them: for a non-translation call,
first the direct string-constant arguments scanned by `visit_Call` (when
the callee is a sink), then the locations reached while descending into
the callee and the arguments; an f-string contributes its own location;
translation calls contribute nothing. -/
def emitOrderE : Expr → List Loc
  | .callE _ func args =>
    if is_translation_call func then []
    else
      (if user_facing_funcs.contains (funcNameOf func) then constArgLocs args else [])
        ++ emitOrderE func ++ emitOrderL args
  | .joinedStrE loc _ => [loc]
  | .attributeE _ v _ => emitOrderE v
  | .otherE _ _ children => emitOrderL children
  | .nameE _ _ => []
  | .constantE _ _ => []

/-- Locations of the direct string-constant arguments, in argument
order. -/
def constArgLocs : ExprList → List Loc
  | .nilE => []
  | .consE (.constantE cloc (.strV _)) rest => cloc :: constArgLocs rest
  | .consE _ rest => constArgLocs rest

/-- Concatenated emission order of a list of children. -/
def emitOrderL : ExprList → List Loc
  | .nilE => []
  | .consE e es => emitOrderE e ++ emitOrderL es
end

mutual
/-- Does some call in the tree whose callee name is in the sink
allow-list carry `Constant(l, s)` (a string constant) among its direct
positional arguments? -/
def hasSinkConstE : Expr → Loc → String → Bool
  | .callE _ func args, l, s =>
    (user_facing_funcs.contains (funcNameOf func) && argsHaveConst args l s)
      || hasSinkConstE func l s || hasSinkConstL args l s
  | .attributeE _ v _, l, s => hasSinkConstE v l s
  | .otherE _ _ children, l, s => hasSinkConstL children l s
  | _, _, _ => false

/-- Is some direct argument exactly the string constant `Constant(l, s)`? -/
def argsHaveConst : ExprList → Loc → String → Bool
  | .nilE, _, _ => false
  | .consE (.constantE cloc (.strV v)) rest, l, s =>
    (cloc == l && v == s) || argsHaveConst rest l s
  | .consE _ rest, l, s => argsHaveConst rest l s

/-- Lifting of `hasSinkConstE` to child lists. -/
def hasSinkConstL : ExprList → Loc → String → Bool
  | .nilE, _, _ => false
  | .consE e es, l, s => hasSinkConstE e l s || hasSinkConstL es l s
end

/-- Fixture: a line already containing a converted f-string, wrapped in
the externalization call `_`. -/
def exLineWrapped : String := "_(f'Save one two.')"

/-- Fixture: the tree of `exLineWrapped` — a call to `_` whose argument
is an f-string that the classifier would accept on its own. -/
def exTreeWrapped : Expr :=
  .callE ⟨1, 0⟩ (.nameE ⟨1, 0⟩ "_")
    (.consE (.joinedStrE ⟨1, 2⟩ (.consJ (.strJ "Save one two.") .nilJ)) .nilE)

/-- Fixture: a line already containing `_('Save one two.').format(x)`. -/
def exLineFormatted : String := "_('Save one two.').format(x)"

/-- Fixture: the tree of `exLineFormatted` — a `.format` call chained
onto a call to `_`. -/
def exTreeFormatted : Expr :=
  .callE ⟨1, 0⟩
    (.attributeE ⟨1, 0⟩
      (.callE ⟨1, 0⟩ (.nameE ⟨1, 0⟩ "_")
        (.consE (.constantE ⟨1, 2⟩ (.strV "Save one two.")) .nilE)) "format")
    (.consE (.nameE ⟨1, 27⟩ "x") .nilE)

/-- Fixture line for the ordering counterexample: a sink call whose
second argument is a string constant while the first argument nests an
f-string at a smaller column. -/
def exLineOrder : String := "print(g(f'early one two.'), 'later words here.')"

/-- Fixture tree of `exLineOrder`. -/
def exTreeOrder : Expr :=
  .callE ⟨1, 0⟩ (.nameE ⟨1, 0⟩ "print")
    (.consE
      (.callE ⟨1, 6⟩ (.nameE ⟨1, 6⟩ "g")
        (.consE (.joinedStrE ⟨1, 8⟩ (.consJ (.strJ "early one two.") .nilJ)) .nilE))
      (.consE (.constantE ⟨1, 28⟩ (.strV "later words here.")) .nilE))

/-- Fixture line with the constant argument before the nested f-string,
so the scan order is ascending. -/
def exLineOrderAsc : String := "print('aaa bbb ccc.', g(f'ddd eee fff.'))"

/-- Fixture tree of `exLineOrderAsc`. -/
def exTreeOrderAsc : Expr :=
  .callE ⟨1, 0⟩ (.nameE ⟨1, 0⟩ "print")
    (.consE (.constantE ⟨1, 6⟩ (.strV "aaa bbb ccc."))
      (.consE
        (.callE ⟨1, 22⟩ (.nameE ⟨1, 22⟩ "g")
          (.consE (.joinedStrE ⟨1, 24⟩ (.consJ (.strJ "ddd eee fff.") .nilJ)) .nilE))
        .nilE))

/-- Fixture: the empty-span replacement of the C1 counterexample. -/
def cexConv : Conv := ⟨1, 0, 1, 0, [99]⟩

/-- Fixture: a method-call sink `obj.prompt("...")`. -/
def exLineMethodSink : String := "obj.prompt('✅ Operation complete')"

/-- Fixture tree of `exLineMethodSink`. -/
def exTreeMethodSink : Expr :=
  .callE ⟨1, 0⟩ (.attributeE ⟨1, 0⟩ (.nameE ⟨1, 0⟩ "obj") "prompt")
    (.consE (.constantE ⟨1, 11⟩ (.strV "✅ Operation complete")) .nilE)

/-- Fixture: the same accepted string passed to a non-sink callee. -/
def exLineNonSink : String := "frobnicate('✅ Operation complete')"

/-- Fixture tree of `exLineNonSink`. -/
def exTreeNonSink : Expr :=
  .callE ⟨1, 0⟩ (.nameE ⟨1, 0⟩ "frobnicate")
    (.consE (.constantE ⟨1, 11⟩ (.strV "✅ Operation complete")) .nilE)

/-- Chain condition for a descending replacement list under upper
boundary `bound`: each span is nonempty, ends at or before the boundary,
and the remaining spans fit below its start. -/
def descOk (src : List Nat) : Nat → List Conv → Prop
  | _, [] => True
  | bound, c :: cs =>
      startIdx src c < endIdx src c ∧ endIdx src c ≤ bound ∧ descOk src (startIdx src c) cs

/-- Fixture: the parts of the f-string `f"Hi [name]!"` (brackets for
braces). -/
def exValues : JPartList :=
  .consJ (.strJ "Hi ")
    (.consJ (.formattedJ (.nameE ⟨1, 9⟩ "name") (-1) none)
      (.consJ (.strJ "!") .nilJ))

/-- Fixture: a parse function satisfying the round-trip contract on the
variable strings of `exValues` (a name expression unparses to itself). -/
def exParseEval : String → Expr := fun s => .nameE ⟨0, 0⟩ s

/-- A replacement starting at or beyond the cursor leaves the loop state
unchanged (the `continue` of converter.py line 528). -/
theorem patchStep_skip (src : List Nat) (st : PatchState) (c : Conv)
    (h : st.last_pos ≤ startIdx src c) : patchStep src st c = st := by
  simp [patchStep, h]

/-- The descending walk of `convert_file`, started on a descending
replacement chain, produces exactly the correctly patched bytes followed
by whatever chunks were already accumulated. -/
theorem patchLoop_desc (src : List Nat) (cs : List Conv) :
    ∀ (parts : List (List Nat)) (bound : Nat) (ap : List Conv) (lg : List String),
      descOk src bound cs →
      (((cs.foldl (patchStep src) ⟨parts, bound, ap, lg⟩).parts
          ++ [src.take (cs.foldl (patchStep src) ⟨parts, bound, ap, lg⟩).last_pos]).reverse).flatten
        = specDesc src bound cs ++ (parts.reverse).flatten := by
  induction cs with
  | nil =>
    intro parts bound ap lg _
    simp [specDesc]
  | cons c cs ih =>
    intro parts bound ap lg h
    obtain ⟨h1, h2, h3⟩ := h
    have hcond : ¬ bound ≤ startIdx src c := by omega
    have hstep : patchStep src ⟨parts, bound, ap, lg⟩ c
        = ⟨parts ++ [(src.take bound).drop (endIdx src c), c.repl],
           startIdx src c, ap ++ [c], lg⟩ := by
      simp [patchStep, hcond]
    rw [List.foldl_cons, hstep, ih _ _ _ _ h3]
    simp [specDesc]

/-- Appending a final (rightmost) replacement to the ascending spec
patching. -/
theorem specPatchedUB_snoc (src : List Nat) (c : Conv) (l : List Conv) :
    ∀ (bound pos : Nat),
      specPatchedUB src bound pos (l ++ [c])
        = specPatchedUB src (startIdx src c) pos l ++ c.repl
            ++ (src.take bound).drop (endIdx src c) := by
  induction l with
  | nil => intro bound pos; simp [specPatchedUB]
  | cons x l ih => intro bound pos; simp [specPatchedUB, ih]

/-- The descending walk's output description agrees with the ascending
spec description of the reversed list. -/
theorem specDesc_eq_specPatchedUB (src : List Nat) (d : List Conv) :
    ∀ bound, specDesc src bound d = specPatchedUB src bound 0 d.reverse := by
  induction d with
  | nil => intro bound; simp [specDesc, specPatchedUB]
  | cons c cs ih => intro bound; simp [specDesc, specPatchedUB_snoc, ih]

/-- With the boundary at the end of the input, the bounded spec
description is the unbounded one. -/
theorem specPatchedUB_length (src : List Nat) (l : List Conv) :
    ∀ pos, specPatchedUB src src.length pos l = specPatched src pos l := by
  induction l with
  | nil => intro pos; simp [specPatchedUB, specPatched]
  | cons c cs ih => intro pos; simp [specPatchedUB, specPatched, ih]

/-- A strictly later key never compares as at most an earlier one. -/
theorem keyLe_false_of_keyLt {a b : Conv} (h : keyLt a b) : keyLe b a = false := by
  rcases h with h | ⟨h1, h2⟩ <;> simp [keyLe] <;> omega

/-- Inserting an element below every key of the list appends it. -/
theorem insertDesc_all_gt (c : Conv) (l : List Conv) (h : ∀ x ∈ l, keyLe x c = false) :
    insertDesc c l = l ++ [c] := by
  induction l with
  | nil => rfl
  | cons x xs ih =>
    simp only [insertDesc, h x (by simp), Bool.false_eq_true, if_false, List.cons_append,
      List.cons.injEq, true_and]
    exact ih fun y hy => h y (by simp [hy])

/-- Sorting (descending) a list whose keys are strictly ascending
reverses it. -/
theorem sortDesc_of_ascending (l : List Conv) (h : l.Pairwise keyLt) :
    sortDesc l = l.reverse := by
  induction l with
  | nil => rfl
  | cons c cs ih =>
    rw [List.pairwise_cons] at h
    have hfold : sortDesc (c :: cs) = insertDesc c (sortDesc cs) := rfl
    rw [hfold, ih h.2, insertDesc_all_gt]
    · simp
    · intro x hx
      exact keyLe_false_of_keyLt (h.1 x (by simpa using hx))

/-- A descending chain condition follows from nonempty spans, the bound,
and pairwise descending disjointness. -/
theorem descOk_of_pairwise (src : List Nat) (l : List Conv) :
    ∀ bound, (∀ c ∈ l, startIdx src c < endIdx src c) → (∀ c ∈ l, endIdx src c ≤ bound) →
      l.Pairwise (fun a b => endIdx src b ≤ startIdx src a) → descOk src bound l := by
  induction l with
  | nil => intro bound _ _ _; trivial
  | cons c cs ih =>
    intro bound h1 h2 h3
    rw [List.pairwise_cons] at h3
    exact ⟨h1 c (by simp), h2 c (by simp),
      ih (startIdx src c) (fun x hx => h1 x (by simp [hx]))
        (fun x hx => h3.1 x hx) h3.2⟩

/-- C1 (amended).  The byte-patching of `convert_file` is an exact no-op
for an empty replacement list, and for a list of non-overlapping,
NONEMPTY spans (`startIdx < endIdx`) lying within the input and given in
ascending order, the output is byte-identical to the input outside the
replaced ranges and equals each replacement's bytes exactly within its
range (expressed by equality with `specPatched`).  The nonemptiness
hypothesis is the amendment: an empty span at the cursor boundary is
dropped by the `start_idx >= last_pos` guard, as `c1_counterexample`
shows. -/
theorem c1_patch_correct (src : List Nat) (convs : List Conv) :
    applyConvs src [] = src ∧
    (convs.Pairwise keyLt →
      (∀ c ∈ convs, startIdx src c < endIdx src c) →
      convs.Pairwise (fun a b => endIdx src a ≤ startIdx src b) →
      (∀ c ∈ convs, endIdx src c ≤ src.length) →
      applyConvs src convs = specPatched src 0 convs) := by
  constructor
  · simp [applyConvs, runPatchLoop, sortDesc]
  · intro hkey hne hdisj hbound
    have hdesc : descOk src src.length convs.reverse := by
      apply descOk_of_pairwise
      · intro c hc; exact hne c (by simpa using hc)
      · intro c hc; exact hbound c (by simpa using hc)
      · rw [List.pairwise_reverse]; exact hdisj
    unfold applyConvs runPatchLoop
    rw [sortDesc_of_ascending convs hkey]
    have hlp := patchLoop_desc src convs.reverse [] src.length [] [] hdesc
    simp only [List.reverse_nil, List.flatten_nil, List.append_nil] at hlp
    rw [hlp, specDesc_eq_specPatchedUB, List.reverse_reverse, specPatchedUB_length]

/-- C1 witness: a concrete two-replacement instance of
`c1_patch_correct`, all hypotheses discharged by evaluation. -/
theorem c1_patch_correct_witness :
    applyConvs [97, 98, 32, 99, 100, 32, 101, 102] [] = [97, 98, 32, 99, 100, 32, 101, 102] ∧
    applyConvs [97, 98, 32, 99, 100, 32, 101, 102] [⟨1, 0, 1, 2, [88]⟩, ⟨1, 3, 1, 5, [89, 90]⟩]
      = specPatched [97, 98, 32, 99, 100, 32, 101, 102] 0
          [⟨1, 0, 1, 2, [88]⟩, ⟨1, 3, 1, 5, [89, 90]⟩] :=
  ⟨(c1_patch_correct [97, 98, 32, 99, 100, 32, 101, 102] []).1,
   (c1_patch_correct [97, 98, 32, 99, 100, 32, 101, 102]
      [⟨1, 0, 1, 2, [88]⟩, ⟨1, 3, 1, 5, [89, 90]⟩]).2
     (by decide) (by decide) (by decide) (by decide)⟩

/-- C1 counterexample: the empty span `[0, 0)` with replacement byte 99
on empty input is non-overlapping (trivially pairwise disjoint, within
bounds, keys ascending), yet the engine drops it — the output lacks the
replacement text, refuting the claim as stated for empty spans. -/
theorem c1_counterexample :
    List.Pairwise keyLt [cexConv] ∧
    List.Pairwise (fun a b => endIdx ([] : List Nat) a ≤ startIdx ([] : List Nat) b) [cexConv] ∧
    (∀ c ∈ [cexConv], endIdx ([] : List Nat) c ≤ ([] : List Nat).length) ∧
    applyConvs [] [cexConv] ≠ specPatched [] 0 [cexConv] := by
  refine ⟨by decide, by decide, by decide, by decide⟩

/-- C2.  An expression the analyzer recognizes as an existing
externalization call — a call to `_`, or an attribute call (such as
`.format`) chained onto a call to `_` — only records its location as
handled and is never descended into, so no candidate is ever produced
from it or its children; an f-string at an already-handled location is
likewise skipped.  Concretely, `_(f'...')` and `_('...').format(x)`
analyze to zero candidates. -/
theorem c2_translation_call_skipped (source_lines : List String) (st : AState)
    (loc loc2 : Loc) (func : Expr) (args : ExprList) (vals : JPartList)
    (h : is_translation_call func = true)
    (h2 : st.translated_locations.contains loc2 = true) :
    visitExpr source_lines (.callE loc func args) st
      = { st with translated_locations := addLoc loc st.translated_locations } ∧
    visitExpr source_lines (.joinedStrE loc2 vals) st = st ∧
    is_translation_call (.nameE dummyLoc "_") = true ∧
    is_translation_call (.attributeE dummyLoc
        (.callE dummyLoc (.nameE dummyLoc "_") .nilE) "format") = true ∧
    analyze [exLineWrapped] exTreeWrapped = [] ∧
    analyze [exLineFormatted] exTreeFormatted = [] := by
  refine ⟨?_, ?_, rfl, rfl, by decide, by decide⟩
  · simp [visitExpr, h]
  · have h2m : loc2 ∈ st.translated_locations := by simpa using h2
    simp [visitExpr, h2m]

/-- C2 witness: the skip behaviour at a concrete call to `_` and a
concrete already-handled f-string location. -/
theorem c2_translation_call_skipped_witness :
    visitExpr [exLineWrapped] (.callE ⟨1, 0⟩ (.nameE ⟨1, 0⟩ "_") .nilE) ⟨[], [⟨2, 0⟩]⟩
      = ⟨[], [⟨1, 0⟩, ⟨2, 0⟩]⟩ ∧
    visitExpr [exLineWrapped] (.joinedStrE ⟨2, 0⟩ .nilJ) ⟨[], [⟨2, 0⟩]⟩ = ⟨[], [⟨2, 0⟩]⟩ ∧
    is_translation_call (.nameE dummyLoc "_") = true ∧
    is_translation_call (.attributeE dummyLoc
        (.callE dummyLoc (.nameE dummyLoc "_") .nilE) "format") = true ∧
    analyze [exLineWrapped] exTreeWrapped = [] ∧
    analyze [exLineFormatted] exTreeFormatted = [] :=
  c2_translation_call_skipped [exLineWrapped] ⟨[], [⟨2, 0⟩]⟩ ⟨1, 0⟩ ⟨2, 0⟩
    (.nameE ⟨1, 0⟩ "_") .nilE .nilJ rfl (by decide)

/-- C3 counterexample: the classifier REJECTS
"Are you sure you want to continue?" while the claim says accept: the
substring `continue` matches the technical-keyword block, which runs
before any accept rule — shown here in the most favourable context. -/
theorem c3_counterexample :
    is_user_facing_string "Are you sure you want to continue?"
      "print('Are you sure you want to continue?')" = false := by decide

/-- C3 (amended).  For every context: "----" is rejected,
"✅ Operation complete" is accepted, "import os" is rejected, and
"Are you sure you want to continue?" is REJECTED (its substring
`continue` is in `technical_patterns`, and reject blocks run first). -/
theorem c3_classifier_boundaries (context : String) :
    is_user_facing_string "----" context = false ∧
    is_user_facing_string "✅ Operation complete" context = true ∧
    is_user_facing_string "import os" context = false ∧
    is_user_facing_string "Are you sure you want to continue?" context = false :=
  ⟨rfl, rfl, rfl, rfl⟩

/-- C4.  Evaluating the placeholder builder of `visit_JoinedStr` at the
failing input `f"[x:>8.3f]"` (conversion −1, format spec the JoinedStr
holding the constant `>8.3f`): because `ast.unparse` renders the
format-spec node as a standalone f-string literal, the emitted
placeholder is `[:f'>8.3f']` and NOT the verbatim `[:>8.3f]` claimed by
the spec and by the code's own comments (converter.py lines 135 and
144; brackets stand for braces here).  The conversion-flag half of the
claim does hold: code 114 yields the placeholder `[!r]`. -/
theorem c4_format_spec_placeholder :
    buildPlaceholder (-1) (some (.consJ (.strJ ">8.3f") .nilJ)) = "\x7b:f'>8.3f'\x7d" ∧
    buildPlaceholder (-1) (some (.consJ (.strJ ">8.3f") .nilJ)) ≠ "\x7b:>8.3f\x7d" ∧
    buildPlaceholder 114 none = "\x7b!r\x7d" := by
  refine ⟨by decide, by decide, by decide⟩

/-- C7 (amended).  During the patch loop, a replacement whose start byte
offset lies at or beyond the current descending cursor is dropped —
silently, see `c7_counterexample` for the absence of any log — and the
loop simply continues: the run over the list with the offending
replacement equals the run over the list without it, so the remaining
replacements are still applied and the overlap never aborts the
operation. -/
theorem c7_overlap_drop (src : List Nat) (st0 : PatchState) (pre post : List Conv) (c : Conv)
    (h : (pre.foldl (patchStep src) st0).last_pos ≤ startIdx src c) :
    (pre ++ c :: post).foldl (patchStep src) st0
      = (pre ++ post).foldl (patchStep src) st0 := by
  rw [List.foldl_append, List.foldl_append, List.foldl_cons, patchStep_skip _ _ _ h]

/-- C7 witness: a concrete drop — two replacements with equal start
keys; the second is skipped and the run equals the run without it. -/
theorem c7_overlap_drop_witness :
    (([⟨1, 2, 1, 5, [89]⟩] : List Conv).foldl (patchStep [97, 98, 99, 100, 101, 102])
        (⟨[], 6, [], []⟩ : PatchState)).last_pos
      ≤ startIdx [97, 98, 99, 100, 101, 102] ⟨1, 2, 1, 4, [88]⟩ ∧
    (([⟨1, 2, 1, 5, [89]⟩] : List Conv) ++ (⟨1, 2, 1, 4, [88]⟩ : Conv) :: []).foldl
        (patchStep [97, 98, 99, 100, 101, 102]) (⟨[], 6, [], []⟩ : PatchState)
      = (([⟨1, 2, 1, 5, [89]⟩] : List Conv) ++ []).foldl (patchStep [97, 98, 99, 100, 101, 102])
          (⟨[], 6, [], []⟩ : PatchState) :=
  ⟨by decide, c7_overlap_drop _ _ _ _ _ (by decide)⟩

/-- C7 counterexample (to "dropped AND LOGGED"): on a concrete
overlapping input the second replacement is dropped (absent from
`applied`, the model of `self.all_conversions`) while the loop's log
output is empty — the loop body of converter.py lines 521-537 contains
no print or logging call, so the drop is not logged. -/
theorem c7_counterexample :
    (runPatchLoop [97, 98, 99, 100, 101, 102]
        [⟨1, 2, 1, 5, [89]⟩, ⟨1, 2, 1, 4, [88]⟩]).applied = [⟨1, 2, 1, 5, [89]⟩] ∧
    (⟨1, 2, 1, 4, [88]⟩ : Conv) ∉ (runPatchLoop [97, 98, 99, 100, 101, 102]
        [⟨1, 2, 1, 5, [89]⟩, ⟨1, 2, 1, 4, [88]⟩]).applied ∧
    (runPatchLoop [97, 98, 99, 100, 101, 102]
        [⟨1, 2, 1, 5, [89]⟩, ⟨1, 2, 1, 4, [88]⟩]).logs = [] := by
  refine ⟨by decide, by decide, by decide⟩

/-- C8.  Dry-run and real run compute the identical final byte buffer
for every input and replacement list; they differ only in the write:
dry-run writes nothing, the real run writes exactly the computed buffer
(when there is anything to convert). -/
theorem c8_dry_run_equivalence (src : List Nat) (convs : List Conv) :
    (convert_file_run true src convs).1 = (convert_file_run false src convs).1 ∧
    (convert_file_run true src convs).2 = none ∧
    (convs ≠ [] → (convert_file_run false src convs).2
        = some ((convert_file_run true src convs).1)) := by
  rcases convs with _ | ⟨c, cs⟩ <;> simp [convert_file_run]

/-- C8 witness: the dry-run equivalence at a concrete file and
replacement. -/
theorem c8_dry_run_equivalence_witness :
    (convert_file_run true [97, 98] [⟨1, 0, 1, 1, [88]⟩]).1
      = (convert_file_run false [97, 98] [⟨1, 0, 1, 1, [88]⟩]).1 ∧
    (convert_file_run true [97, 98] [⟨1, 0, 1, 1, [88]⟩]).2 = none ∧
    (convert_file_run false [97, 98] [⟨1, 0, 1, 1, [88]⟩]).2
      = some ((convert_file_run true [97, 98] [⟨1, 0, 1, 1, [88]⟩]).1) :=
  ⟨(c8_dry_run_equivalence [97, 98] [⟨1, 0, 1, 1, [88]⟩]).1,
   (c8_dry_run_equivalence [97, 98] [⟨1, 0, 1, 1, [88]⟩]).2.1,
   (c8_dry_run_equivalence [97, 98] [⟨1, 0, 1, 1, [88]⟩]).2.2 (by decide)⟩

theorem hexVal_hexDigitChar (n : Nat) (h : n < 16) : hexVal (hexDigitChar n) = some n := by
  interval_cases n <;> rfl

theorem unescape_escape (q : Char) (hq : q = '\'' ∨ q = '"') (s : List Char) :
    unescapeBody q ((s.map (reprEscChar q)).flatten ++ [q]) = some s := by
  induction s with
  | nil => rcases hq with rfl | rfl <;> rfl
  | cons c cs ih =>
    have hb1 : ¬ ('\\' = q) := by rcases hq with rfl | rfl <;> decide
    have hb2 : ¬ (q = '\\') := by rcases hq with rfl | rfl <;> decide
    have hb3 : ¬ (q = '\t') := by rcases hq with rfl | rfl <;> decide
    have hb4 : ¬ (q = '\n') := by rcases hq with rfl | rfl <;> decide
    have hb5 : ¬ (q = '\r') := by rcases hq with rfl | rfl <;> decide
    have hb6 : ¬ (q = 't') := by rcases hq with rfl | rfl <;> decide
    have hb7 : ¬ (q = 'n') := by rcases hq with rfl | rfl <;> decide
    have hb8 : ¬ (q = 'r') := by rcases hq with rfl | rfl <;> decide
    have hb9 : ¬ (q = 'x') := by rcases hq with rfl | rfl <;> decide
    simp only [List.map_cons, List.flatten_cons, List.append_assoc]
    by_cases h1 : c = '\\'
    · subst h1
      rw [show reprEscChar q '\\' = ['\\', '\\'] from rfl]
      simp [unescapeBody, unescapeEsc, hb1, ih]
    by_cases h2 : c = '\t'
    · subst h2
      rw [show reprEscChar q '\t' = ['\\', 't'] from by simp [reprEscChar, hb2]]
      simp [unescapeBody, unescapeEsc, hb1, ih]
    by_cases h3 : c = '\n'
    · subst h3
      rw [show reprEscChar q '\n' = ['\\', 'n'] from by simp [reprEscChar, hb2]]
      simp [unescapeBody, unescapeEsc, hb1, ih]
    by_cases h4 : c = '\r'
    · subst h4
      rw [show reprEscChar q '\r' = ['\\', 'r'] from by simp [reprEscChar, hb2]]
      simp [unescapeBody, unescapeEsc, hb1, ih]
    by_cases h5 : c = q
    · subst h5
      rw [show reprEscChar c c = ['\\', c] from by simp [reprEscChar, hb2, hb3, hb4, hb5]]
      simp [unescapeBody, unescapeEsc, hb1, hb2, hb6, hb7, hb8, hb9, ih]
    by_cases h6 : c.toNat < 32 ∨ c.toNat = 127
    · rw [show reprEscChar q c
          = ['\\', 'x', hexDigitChar (c.toNat / 16), hexDigitChar (c.toNat % 16)] from by
        simp [reprEscChar, h1, h2, h3, h4, h5, h6]]
      simp only [List.cons_append]
      simp [unescapeBody, unescapeEsc, hb1]
      rw [unescapeHex, hexVal_hexDigitChar _ (by omega), hexVal_hexDigitChar _ (by omega)]
      simp [Nat.div_add_mod, Char.ofNat_toNat, ih]
    · rw [show reprEscChar q c = [c] from by simp [reprEscChar, h1, h2, h3, h4, h5, h6]]
      simp [unescapeBody, h1, h5, ih]


theorem c6_escape_roundtrip (s : String) (hascii : ∀ c ∈ s.data, c.toNat < 128) :
    parsePyStrLit (pyRepr s) = some s ∧
    replacement_for_lit s = "_(" ++ pyRepr s ++ ")" := by
  obtain ⟨d⟩ := s
  constructor
  · have hq : reprQuote ⟨d⟩ = '\'' ∨ reprQuote ⟨d⟩ = '"' := by
      unfold reprQuote; split_ifs <;> simp
    have hcond : (reprQuote ⟨d⟩ = '\'' || reprQuote ⟨d⟩ = '"') = true := by
      rcases hq with h | h <;> simp [h]
    show (if (reprQuote ⟨d⟩ = '\'' || reprQuote ⟨d⟩ = '"') = true then
        (unescapeBody (reprQuote ⟨d⟩)
          ((d.map (reprEscChar (reprQuote ⟨d⟩))).flatten ++ [reprQuote ⟨d⟩])).map String.mk
      else none) = some ⟨d⟩
    rw [if_pos hcond, unescape_escape _ hq]
    rfl
  · rfl

theorem c6_escape_roundtrip_witness :
    parsePyStrLit (pyRepr "a\"b'c\\d\ne") = some "a\"b'c\\d\ne" ∧
    replacement_for_lit "a\"b'c\\d\ne" = "_(" ++ pyRepr "a\"b'c\\d\ne" ++ ")" :=
  c6_escape_roundtrip "a\"b'c\\d\ne" (by decide)

theorem buildTemplate_vars (vals : JPartList) :
    (buildTemplate vals).2 = (subExprs vals).map pyUnparse := by
  cases vals with
  | nilJ => rfl
  | consJ p ps =>
    have ih := buildTemplate_vars ps
    cases p with
    | strJ s => simpa [buildTemplate, subExprs] using ih
    | formattedJ v conv spec => simp [buildTemplate, subExprs, ih]
    | otherJ e => simpa [buildTemplate, subExprs] using ih

theorem exprListToList_toExprList (l : List Expr) : exprListToList (toExprList l) = l := by
  induction l with
  | nil => rfl
  | cons e es ih => simp [toExprList, exprListToList, ih]

theorem unparseArgs_toExprList (l : List Expr) :
    unparseArgs (toExprList l) = l.map pyUnparse := by
  induction l with
  | nil => rfl
  | cons e es ih => simp [toExprList, unparseArgs, ih]

theorem map_unparse_parse (parseEval : String → Expr) (l : List String)
    (h : ∀ v ∈ l, pyUnparse (parseEval v) = v) :
    (l.map parseEval).map pyUnparse = l := by
  induction l with
  | nil => rfl
  | cons x xs ih =>
    simp only [List.map_cons, List.cons.injEq]
    exact ⟨h x (by simp), ih fun v hv => h v (by simp [hv])⟩

theorem intercalate_single (x : String) : ", ".intercalate [x] = x := rfl

theorem append_right_lit (x : String) :
    x ++ ")" ++ "." ++ "format" ++ "(" = x ++ ").format(" := by
  rw [String.append_assoc, String.append_assoc, String.append_assoc]
  rfl

theorem c5_interpolation_fidelity (parseEval : String → Expr) (values : JPartList)
    (hround : ∀ v ∈ (buildTemplate values).2, pyUnparse (parseEval v) = v)
    (hne : (buildTemplate values).2 ≠ []) :
    (buildTemplate values).2 = (subExprs values).map pyUnparse ∧
    (callArgs (format_call parseEval (buildTemplate values).1 (buildTemplate values).2)).length
      = (buildTemplate values).2.length ∧
    (callArgs (format_call parseEval (buildTemplate values).1 (buildTemplate values).2)).map
        pyUnparse = (buildTemplate values).2 ∧
    replacement_for_joined parseEval (buildTemplate values).1 (buildTemplate values).2
      = "_(" ++ pyRepr (buildTemplate values).1 ++ ").format("
          ++ String.intercalate ", " (buildTemplate values).2 ++ ")" := by
  refine ⟨buildTemplate_vars values, ?_, ?_, ?_⟩
  · simp [callArgs, format_call, exprListToList_toExprList]
  · simp [callArgs, format_call, exprListToList_toExprList, map_unparse_parse parseEval _ hround]
  · have hemp : (buildTemplate values).2.isEmpty = false := by
      rcases h : (buildTemplate values).2 with _ | _
      · exact absurd h hne
      · rfl
    rw [replacement_for_joined, hemp]
    simp only [Bool.false_eq_true, if_false, format_call, translation_call, pyUnparse,
      unparseArgs, unparseArgs_toExprList, map_unparse_parse parseEval _ hround]
    rw [intercalate_single, append_right_lit]
    rfl

/-- C5 witness: the f-string `f"Hi [name]!"` (brackets for braces) with
the name-expression parse function; the template is `Hi [][]!`-style with
one placeholder and the emitted call is `_('Hi [][]!').format(name)`. -/
theorem c5_interpolation_fidelity_witness :
    (buildTemplate exValues).2 = (subExprs exValues).map pyUnparse ∧
    (callArgs (format_call exParseEval (buildTemplate exValues).1 (buildTemplate exValues).2)).length
      = (buildTemplate exValues).2.length ∧
    (callArgs (format_call exParseEval (buildTemplate exValues).1 (buildTemplate exValues).2)).map
        pyUnparse = (buildTemplate exValues).2 ∧
    replacement_for_joined exParseEval (buildTemplate exValues).1 (buildTemplate exValues).2
      = "_(" ++ pyRepr (buildTemplate exValues).1 ++ ").format("
          ++ String.intercalate ", " (buildTemplate exValues).2 ++ ")" :=
  c5_interpolation_fidelity exParseEval exValues (by decide) (by decide)

mutual
/-- The argument scan appends candidates whose locations form a sublist
of the direct constant-argument locations, in order. -/
theorem scanCallArgs_emits (source_lines : List String) (args : ExprList) :
    ∀ st : AState, ∃ l : List Cand,
      (scanCallArgs source_lines args st).strings_to_convert = st.strings_to_convert ++ l ∧
      (l.map Cand.loc).Sublist (constArgLocs args) := by
  cases args with
  | nilE => intro st; exact ⟨[], by simp [scanCallArgs], by simp [constArgLocs]⟩
  | consE a rest =>
    intro st
    cases a with
    | constantE cloc v =>
      cases v with
      | strV s =>
        by_cases hh : cloc ∈ st.translated_locations
        · obtain ⟨l, hl, hsub⟩ := scanCallArgs_emits source_lines rest st
          refine ⟨l, ?_, ?_⟩
          · simpa [scanCallArgs, hh] using hl
          · simpa [constArgLocs] using hsub.cons cloc
        · by_cases hc : is_user_facing_string s (lineAt source_lines cloc)
          · obtain ⟨l, hl, hsub⟩ := scanCallArgs_emits source_lines rest
              { st with
                  strings_to_convert := st.strings_to_convert
                    ++ [.lit cloc s (pyStrip (lineAt source_lines cloc))],
                  translated_locations := addLoc cloc st.translated_locations }
            refine ⟨.lit cloc s (pyStrip (lineAt source_lines cloc)) :: l, ?_, ?_⟩
            · simpa [scanCallArgs, hh, hc] using hl
            · simpa [constArgLocs, Cand.loc] using hsub.cons₂ cloc
          · obtain ⟨l, hl, hsub⟩ := scanCallArgs_emits source_lines rest st
            refine ⟨l, ?_, ?_⟩
            · simpa [scanCallArgs, hh, hc] using hl
            · simpa [constArgLocs] using hsub.cons cloc
      | otherV r =>
        obtain ⟨l, hl, hsub⟩ := scanCallArgs_emits source_lines rest st
        exact ⟨l, by simpa [scanCallArgs] using hl, by simpa [constArgLocs] using hsub⟩
    | nameE loc id =>
      obtain ⟨l, hl, hsub⟩ := scanCallArgs_emits source_lines rest st
      exact ⟨l, by simpa [scanCallArgs] using hl, by simpa [constArgLocs] using hsub⟩
    | callE loc f as =>
      obtain ⟨l, hl, hsub⟩ := scanCallArgs_emits source_lines rest st
      exact ⟨l, by simpa [scanCallArgs] using hl, by simpa [constArgLocs] using hsub⟩
    | attributeE loc v1 at1 =>
      obtain ⟨l, hl, hsub⟩ := scanCallArgs_emits source_lines rest st
      exact ⟨l, by simpa [scanCallArgs] using hl, by simpa [constArgLocs] using hsub⟩
    | joinedStrE loc vs =>
      obtain ⟨l, hl, hsub⟩ := scanCallArgs_emits source_lines rest st
      exact ⟨l, by simpa [scanCallArgs] using hl, by simpa [constArgLocs] using hsub⟩
    | otherE loc r ch =>
      obtain ⟨l, hl, hsub⟩ := scanCallArgs_emits source_lines rest st
      exact ⟨l, by simpa [scanCallArgs] using hl, by simpa [constArgLocs] using hsub⟩

/-- The analyzer only appends candidates, and the locations of the newly
appended candidates form a sublist of the tree's emission order. -/
theorem visitExpr_emits (source_lines : List String) (e : Expr) :
    ∀ st : AState, ∃ l : List Cand,
      (visitExpr source_lines e st).strings_to_convert = st.strings_to_convert ++ l ∧
      (l.map Cand.loc).Sublist (emitOrderE e) := by
  cases e with
  | callE loc func args =>
    intro st
    by_cases ht : is_translation_call func
    · exact ⟨[], by simp [visitExpr, ht], by simp [emitOrderE, ht]⟩
    · by_cases hs : funcNameOf func ∈ user_facing_funcs
      · obtain ⟨l0, hl0, hs0⟩ := scanCallArgs_emits source_lines args st
        obtain ⟨l1, hl1, hs1⟩ :=
          visitExpr_emits source_lines func (scanCallArgs source_lines args st)
        obtain ⟨l2, hl2, hs2⟩ := visitList_emits source_lines args
          (visitExpr source_lines func (scanCallArgs source_lines args st))
        refine ⟨l0 ++ l1 ++ l2, ?_, ?_⟩
        · simp [visitExpr, ht, hs, hl2, hl1, hl0]
        · simpa [emitOrderE, ht, hs] using (hs0.append hs1).append hs2
      · obtain ⟨l1, hl1, hs1⟩ := visitExpr_emits source_lines func st
        obtain ⟨l2, hl2, hs2⟩ :=
          visitList_emits source_lines args (visitExpr source_lines func st)
        refine ⟨l1 ++ l2, ?_, ?_⟩
        · simp [visitExpr, ht, hs, hl2, hl1]
        · simpa [emitOrderE, ht, hs] using hs1.append hs2
  | joinedStrE loc vals =>
    intro st
    by_cases hh : loc ∈ st.translated_locations
    · exact ⟨[], by simp [visitExpr, hh], by simp [emitOrderE]⟩
    · by_cases hc : is_user_facing_string (buildTemplate vals).1 (lineAt source_lines loc)
      · refine ⟨[.joined loc (buildTemplate vals).1 (buildTemplate vals).2
            (pyStrip (lineAt source_lines loc))], ?_, ?_⟩
        · simp [visitExpr, hh, hc]
        · simp [emitOrderE, Cand.loc]
      · exact ⟨[], by simp [visitExpr, hh, hc], by simp [emitOrderE]⟩
  | nameE loc id => intro st; exact ⟨[], by simp [visitExpr], by simp [emitOrderE]⟩
  | constantE loc v => intro st; exact ⟨[], by simp [visitExpr], by simp [emitOrderE]⟩
  | attributeE loc v a =>
    intro st
    obtain ⟨l, hl, hsub⟩ := visitExpr_emits source_lines v st
    exact ⟨l, by simpa [visitExpr] using hl, by simpa [emitOrderE] using hsub⟩
  | otherE loc r children =>
    intro st
    obtain ⟨l, hl, hsub⟩ := visitList_emits source_lines children st
    exact ⟨l, by simpa [visitExpr] using hl, by simpa [emitOrderE] using hsub⟩

/-- Lifting of `visitExpr_emits` to child lists. -/
theorem visitList_emits (source_lines : List String) (es : ExprList) :
    ∀ st : AState, ∃ l : List Cand,
      (visitList source_lines es st).strings_to_convert = st.strings_to_convert ++ l ∧
      (l.map Cand.loc).Sublist (emitOrderL es) := by
  cases es with
  | nilE => intro st; exact ⟨[], by simp [visitList], by simp [emitOrderL]⟩
  | consE e rest =>
    intro st
    obtain ⟨l1, hl1, hs1⟩ := visitExpr_emits source_lines e st
    obtain ⟨l2, hl2, hs2⟩ := visitList_emits source_lines rest (visitExpr source_lines e st)
    refine ⟨l1 ++ l2, ?_, ?_⟩
    · simp [visitList, hl2, hl1]
    · simpa [emitOrderL] using hs1.append hs2
end

/-- C9 (amended).  The analyzer returns candidates in its emission scan
order (constant arguments of a sink call first, then the candidates found
while descending); whenever that scan order is ascending by (line,
column), the returned candidate list is sorted ascending.  It is NOT
sorted in general: see `c9_counterexample`. -/
theorem c9_sorted_when_scan_sorted (source_lines : List String) (tree : Expr)
    (h : (emitOrderE tree).Pairwise locLe) :
    ((analyze source_lines tree).map Cand.loc).Pairwise locLe := by
  obtain ⟨l, hl, hsub⟩ := visitExpr_emits source_lines tree ⟨[], []⟩
  have : analyze source_lines tree = l := by simpa [analyze] using hl
  rw [this]
  exact h.sublist hsub

/-- C9 witness: a sink call with the constant argument before the nested
f-string has an ascending scan order, and its candidate list is sorted. -/
theorem c9_sorted_when_scan_sorted_witness :
    (emitOrderE exTreeOrderAsc).Pairwise locLe ∧
    ((analyze [exLineOrderAsc] exTreeOrderAsc).map Cand.loc).Pairwise locLe :=
  ⟨by decide, c9_sorted_when_scan_sorted [exLineOrderAsc] exTreeOrderAsc (by decide)⟩

/-- C9 counterexample: for the parsed line
`print(g(f'early one two.'), 'later words here.')` the analyzer emits the
constant argument (column 28) BEFORE the nested f-string (column 8),
because `visit_Call` scans the direct constant arguments before
descending — the candidate list is not sorted by (line, column). -/
theorem c9_counterexample :
    (analyze [exLineOrder] exTreeOrder).map Cand.loc = [⟨1, 28⟩, ⟨1, 8⟩] ∧
    ¬ ((analyze [exLineOrder] exTreeOrder).map Cand.loc).Pairwise locLe := by
  refine ⟨by decide, by decide⟩

mutual
/-- A string-constant candidate produced by the argument scan comes from
one of the direct constant arguments. -/
theorem scanCallArgs_lit_from_args (source_lines : List String) (args : ExprList) :
    ∀ (st : AState) (l : Loc) (s ln : String),
      Cand.lit l s ln ∈ (scanCallArgs source_lines args st).strings_to_convert →
      Cand.lit l s ln ∈ st.strings_to_convert ∨ argsHaveConst args l s = true := by
  cases args with
  | nilE =>
    intro st l s ln hmem
    exact Or.inl (by simpa [scanCallArgs] using hmem)
  | consE a rest =>
    intro st l s ln hmem
    cases a with
    | constantE cloc v =>
      cases v with
      | strV sv =>
        by_cases hh : cloc ∈ st.translated_locations
        · rcases scanCallArgs_lit_from_args source_lines rest st l s ln
              (by simpa [scanCallArgs, hh] using hmem) with h | h
          · exact Or.inl h
          · exact Or.inr (by simp [argsHaveConst, h])
        · by_cases hc : is_user_facing_string sv (lineAt source_lines cloc)
          · rcases scanCallArgs_lit_from_args source_lines rest
                { st with
                    strings_to_convert := st.strings_to_convert
                      ++ [.lit cloc sv (pyStrip (lineAt source_lines cloc))],
                    translated_locations := addLoc cloc st.translated_locations } l s ln
                (by simpa [scanCallArgs, hh, hc] using hmem) with h | h
            · rcases List.mem_append.mp h with h' | h'
              · exact Or.inl h'
              · obtain ⟨h1, h2, h3⟩ :
                    l = cloc ∧ s = sv ∧ ln = pyStrip (lineAt source_lines cloc) := by
                  simpa using h'
                exact Or.inr (by simp [argsHaveConst, h1, h2])
            · exact Or.inr (by simp [argsHaveConst, h])
          · rcases scanCallArgs_lit_from_args source_lines rest st l s ln
                (by simpa [scanCallArgs, hh, hc] using hmem) with h | h
            · exact Or.inl h
            · exact Or.inr (by simp [argsHaveConst, h])
      | otherV r =>
        rcases scanCallArgs_lit_from_args source_lines rest st l s ln
            (by simpa [scanCallArgs] using hmem) with h | h
        · exact Or.inl h
        · exact Or.inr (by simp [argsHaveConst, h])
    | nameE loc id =>
      rcases scanCallArgs_lit_from_args source_lines rest st l s ln
          (by simpa [scanCallArgs] using hmem) with h | h
      · exact Or.inl h
      · exact Or.inr (by simp [argsHaveConst, h])
    | callE loc f as =>
      rcases scanCallArgs_lit_from_args source_lines rest st l s ln
          (by simpa [scanCallArgs] using hmem) with h | h
      · exact Or.inl h
      · exact Or.inr (by simp [argsHaveConst, h])
    | attributeE loc v1 a1 =>
      rcases scanCallArgs_lit_from_args source_lines rest st l s ln
          (by simpa [scanCallArgs] using hmem) with h | h
      · exact Or.inl h
      · exact Or.inr (by simp [argsHaveConst, h])
    | joinedStrE loc vs =>
      rcases scanCallArgs_lit_from_args source_lines rest st l s ln
          (by simpa [scanCallArgs] using hmem) with h | h
      · exact Or.inl h
      · exact Or.inr (by simp [argsHaveConst, h])
    | otherE loc r ch =>
      rcases scanCallArgs_lit_from_args source_lines rest st l s ln
          (by simpa [scanCallArgs] using hmem) with h | h
      · exact Or.inl h
      · exact Or.inr (by simp [argsHaveConst, h])

/-- Every string-constant candidate the analyzer produces comes from a
direct constant argument of some sink call in the tree. -/
theorem visitExpr_lit_from_sink (source_lines : List String) (e : Expr) :
    ∀ (st : AState) (l : Loc) (s ln : String),
      Cand.lit l s ln ∈ (visitExpr source_lines e st).strings_to_convert →
      Cand.lit l s ln ∈ st.strings_to_convert ∨ hasSinkConstE e l s = true := by
  cases e with
  | callE loc func args =>
    intro st l s ln hmem
    by_cases ht : is_translation_call func
    · exact Or.inl (by simpa [visitExpr, ht] using hmem)
    · by_cases hs : funcNameOf func ∈ user_facing_funcs
      · have hmem' : Cand.lit l s ln ∈ (visitList source_lines args
            (visitExpr source_lines func (scanCallArgs source_lines args st))).strings_to_convert := by
          simpa [visitExpr, ht, hs] using hmem
        rcases visitList_lit_from_sink source_lines args _ l s ln hmem' with h | h
        · rcases visitExpr_lit_from_sink source_lines func _ l s ln h with h' | h'
          · rcases scanCallArgs_lit_from_args source_lines args st l s ln h' with h'' | h''
            · exact Or.inl h''
            · exact Or.inr (by simp [hasSinkConstE, hs, h''])
          · exact Or.inr (by simp [hasSinkConstE, h'])
        · exact Or.inr (by simp [hasSinkConstE, h])
      · have hmem' : Cand.lit l s ln ∈ (visitList source_lines args
            (visitExpr source_lines func st)).strings_to_convert := by
          simpa [visitExpr, ht, hs] using hmem
        rcases visitList_lit_from_sink source_lines args _ l s ln hmem' with h | h
        · rcases visitExpr_lit_from_sink source_lines func st l s ln h with h' | h'
          · exact Or.inl h'
          · exact Or.inr (by simp [hasSinkConstE, h'])
        · exact Or.inr (by simp [hasSinkConstE, h])
  | joinedStrE loc vals =>
    intro st l s ln hmem
    by_cases hh : loc ∈ st.translated_locations
    · exact Or.inl (by simpa [visitExpr, hh] using hmem)
    · by_cases hc : is_user_facing_string (buildTemplate vals).1 (lineAt source_lines loc)
      · exact Or.inl (by simpa [visitExpr, hh, hc] using hmem)
      · exact Or.inl (by simpa [visitExpr, hh, hc] using hmem)
  | nameE loc id => intro st l s ln hmem; exact Or.inl (by simpa [visitExpr] using hmem)
  | constantE loc v => intro st l s ln hmem; exact Or.inl (by simpa [visitExpr] using hmem)
  | attributeE loc v a =>
    intro st l s ln hmem
    rcases visitExpr_lit_from_sink source_lines v st l s ln
        (by simpa [visitExpr] using hmem) with h | h
    · exact Or.inl h
    · exact Or.inr (by simpa [hasSinkConstE] using h)
  | otherE loc r children =>
    intro st l s ln hmem
    rcases visitList_lit_from_sink source_lines children st l s ln
        (by simpa [visitExpr] using hmem) with h | h
    · exact Or.inl h
    · exact Or.inr (by simpa [hasSinkConstE] using h)

/-- Lifting of `visitExpr_lit_from_sink` to child lists. -/
theorem visitList_lit_from_sink (source_lines : List String) (es : ExprList) :
    ∀ (st : AState) (l : Loc) (s ln : String),
      Cand.lit l s ln ∈ (visitList source_lines es st).strings_to_convert →
      Cand.lit l s ln ∈ st.strings_to_convert ∨ hasSinkConstL es l s = true := by
  cases es with
  | nilE => intro st l s ln hmem; exact Or.inl (by simpa [visitList] using hmem)
  | consE e rest =>
    intro st l s ln hmem
    rcases visitList_lit_from_sink source_lines rest _ l s ln
        (by simpa [visitList] using hmem) with h | h
    · rcases visitExpr_lit_from_sink source_lines e st l s ln h with h' | h'
      · exact Or.inl h'
      · exact Or.inr (by simp [hasSinkConstL, h'])
    · exact Or.inr (by simp [hasSinkConstL, h])
end

/-- C10.  A Literal (string-constant) candidate is emitted only from the
direct arguments of a call whose callee name — bare identifier or final
attribute name — is in the sink allow-list print/input/echo/prompt: every
such candidate in the analyzer's output is a direct string-constant
argument of a sink call in the tree.  Concretely, the method call
`obj.prompt('...')` counts as a sink and yields the candidate, while the
same string passed to `frobnicate(...)` yields none. -/
theorem c10_literal_sink_only (source_lines : List String) (tree : Expr)
    (l : Loc) (s ln : String)
    (h : Cand.lit l s ln ∈ analyze source_lines tree) :
    hasSinkConstE tree l s = true ∧
    analyze [exLineMethodSink] exTreeMethodSink
      = [Cand.lit ⟨1, 11⟩ "✅ Operation complete" exLineMethodSink] ∧
    analyze [exLineNonSink] exTreeNonSink = [] := by
  refine ⟨?_, by decide, by decide⟩
  rcases visitExpr_lit_from_sink source_lines tree ⟨[], []⟩ l s ln (by simpa [analyze] using h)
      with h' | h'
  · simp at h'
  · exact h'

/-- C10 witness: the necessary condition instantiated at the
`obj.prompt` fixture, the membership hypothesis discharged by
evaluation. -/
theorem c10_literal_sink_only_witness :
    hasSinkConstE exTreeMethodSink ⟨1, 11⟩ "✅ Operation complete" = true ∧
    analyze [exLineMethodSink] exTreeMethodSink
      = [Cand.lit ⟨1, 11⟩ "✅ Operation complete" exLineMethodSink] ∧
    analyze [exLineNonSink] exTreeNonSink = [] :=
  c10_literal_sink_only [exLineMethodSink] exTreeMethodSink ⟨1, 11⟩
    "✅ Operation complete" exLineMethodSink (by decide)

end Omnilang
